import Mathlib

/-!
# Verification of the LadderChain (Golos/Steem-family) chain core

Shallow embedding of `database.cpp` (the chain controller of this
repository) together with the protocol-level helpers it uses, and proofs
of the specification's claims about it.

Conventions:
* C++ integer quantities (`uint32_t` block numbers, `fc::time_point_sec`
  timestamps measured in whole seconds, sizes) become `Nat`; the signed
  `share_type` amounts become `Int`.  None of the claims exercises
  wrap-around behaviour (`share_type` is `fc::safe<int64_t>`, which throws
  instead of wrapping), so unbounded integers are a faithful model on the
  non-throwing range.
* `FC_ASSERT` failures and thrown exceptions are modelled by `Option`/
  `Except`/`Bool` results.
-/

namespace LadderChain

/-- Modelled from the spec: the protocol asset-symbol constants
(`STEEM_SYMBOL`, `SBD_SYMBOL`, `VESTS_SYMBOL`) live in protocol headers
that are not under `src/`.  They are three distinct packed 64-bit
constants; only their distinctness and their identity matter to the
claims, so they are represented by three distinct naturals. -/
def STEEM_SYMBOL : Nat := 1

/-- Modelled from the spec: the SBD (stable-dollar) asset symbol constant,
distinct from `STEEM_SYMBOL`.  See `STEEM_SYMBOL`. -/
def SBD_SYMBOL : Nat := 2

/-- Modelled from the spec: the vesting-share asset symbol constant.
See `STEEM_SYMBOL`. -/
def VESTS_SYMBOL : Nat := 3

/-- `protocol::asset`: an amount (`share_type`, signed 64-bit) tagged with
a symbol.  The one-argument C++ constructor `asset(share_type a = 0,
asset_symbol_type id = STEEM_SYMBOL)` defaults the symbol to
`STEEM_SYMBOL`; `assetOfAmount` mirrors that constructor. -/
structure Asset where
  amount : Int
  symbol : Nat
deriving DecidableEq, Repr

/-- The C++ constructor `asset(a)` with the defaulted second argument:
the symbol is `STEEM_SYMBOL`. -/
def assetOfAmount (a : Int) : Asset := ⟨a, STEEM_SYMBOL⟩

/-- `protocol::price`: a ratio of two assets. -/
structure Price where
  base : Asset
  quote : Asset
deriving DecidableEq, Repr

/-- Modelled from the spec: `operator*(asset, price)` of the protocol
library (not under `src/`).  An asset denominated in the price's base
converts to `⌊amount × quote / base⌋` of the quote symbol, and an asset in
the quote symbol converts to `⌊amount × base / quote⌋` of the base symbol
(128-bit intermediate, truncating division; all amounts involved in the
claims are nonnegative).  Symbol mismatch is an assertion failure in C++;
here the base-symbol branch is the catch-all, and every use below is
guarded by a symbol hypothesis. -/
def mulAssetPrice (a : Asset) (p : Price) : Asset :=
  if a.symbol = p.base.symbol then
    ⟨Int.tdiv (a.amount * p.quote.amount) p.base.amount, p.quote.symbol⟩
  else
    ⟨Int.tdiv (a.amount * p.base.amount) p.quote.amount, p.base.symbol⟩

/-! ## Slot arithmetic (`database::get_slot_time`, `database::get_slot_at_time`)

`STEEMIT_BLOCK_INTERVAL` is 3 seconds: `database.cpp` itself
`static_assert`s `STEEMIT_BLOCK_INTERVAL == 3`. -/

def STEEMIT_BLOCK_INTERVAL : Nat := 3

/-- The slice of chain state that slot arithmetic reads: the head block
number and `dpo.time` (the head block's timestamp; at block 0 this same
field is the genesis time), both in seconds since epoch. -/
structure SlotState where
  headBlockNum : Nat
  time : Nat
deriving DecidableEq, Repr

/-- `database::get_slot_time(slot_num)`:
* slot 0 ↦ `fc::time_point_sec()` (the zero time point);
* empty chain ↦ genesis time + slot × interval;
* otherwise ↦ the head block's time rounded down to an interval boundary,
  plus slot × interval. -/
def get_slot_time (s : SlotState) (slotNum : Nat) : Nat :=
  if slotNum = 0 then 0
  else if s.headBlockNum = 0 then
    s.time + slotNum * STEEMIT_BLOCK_INTERVAL
  else
    (s.time / STEEMIT_BLOCK_INTERVAL) * STEEMIT_BLOCK_INTERVAL
      + slotNum * STEEMIT_BLOCK_INTERVAL

/-- `database::get_slot_at_time(when)`: 0 before slot 1's time, otherwise
`(when − slot1_time) / interval + 1` (truncating division). -/
def get_slot_at_time (s : SlotState) (when : Nat) : Nat :=
  let firstSlotTime := get_slot_time s 1
  if when < firstSlotTime then 0
  else (when - firstSlotTime) / STEEMIT_BLOCK_INTERVAL + 1

/-! ## Irreversibility (`database::update_last_irreversible_block`) -/

/-- `STEEMIT_100_PERCENT`: percentages are expressed in units of 1/100 of
a percent (the config header is not under `src/`; this is the protocol's
fixed base). -/
def STEEMIT_100_PERCENT : Nat := 10000

/-- The externalized configuration constants `update_last_irreversible_block`
reads (`STEEMIT_START_MINER_VOTING_BLOCK`, `STEEMIT_MAX_WITNESSES`,
`STEEMIT_IRREVERSIBLE_THRESHOLD`; the spec externalizes constants, so they
are parameters).  The source `static_assert`s that the threshold is
nonzero. -/
structure IrreversibilityConsts where
  startMinerVotingBlock : Nat
  maxWitnesses : Nat
  irreversibleThreshold : Nat
deriving DecidableEq, Repr

/-- `database::update_last_irreversible_block`, as a function from the
head block number, the current `last_irreversible_block_num` and the
scheduled witnesses' `last_confirmed_block_num` values to the new
`last_irreversible_block_num`:
* before `STEEMIT_START_MINER_VOTING_BLOCK`, the conservative rule
  `head − STEEMIT_MAX_WITNESSES` (once the head is past that many blocks);
* afterwards, `std::nth_element` at
  `offset = (100% − threshold) × N / 100%` over the confirmations —
  modelled as indexing the ascending sort at `offset` — and the global
  value is raised to the candidate only when the candidate is larger. -/
def update_last_irreversible_block (c : IrreversibilityConsts)
    (headBlockNum lastIrreversible : Nat) (confirms : List Nat) : Nat :=
  if headBlockNum < c.startMinerVotingBlock then
    if headBlockNum > c.maxWitnesses then headBlockNum - c.maxWitnesses
    else lastIrreversible
  else
    let offset := (STEEMIT_100_PERCENT - c.irreversibleThreshold)
      * confirms.length / STEEMIT_100_PERCENT
    let candidate := (confirms.insertionSort (· ≤ ·)).getD offset 0
    if candidate > lastIrreversible then candidate else lastIrreversible

/-! ## Pending-transaction selection in `database::_generate_block` -/

/-- A pending transaction as `_generate_block` sees it: its expiration
time, plus an opaque payload distinguishing transactions.  Its serialized
size and its effect on the store enter through the `packSize`/`applyTx`
parameters below. -/
structure PendingTx where
  expiration : Nat
  payload : Nat
deriving DecidableEq, Repr

/-- The pending-transaction loop of `database::_generate_block`: walk the
pending list accumulating `total_block_size` (seeded with the header
size); skip a transaction whose expiration is before `when`; postpone one
whose inclusion would reach `maximum_block_size`; re-apply the rest under
a temporary session (`applyTx`, `none` = the application threw and the
transaction is silently skipped) and collect the survivors into the block
being built. -/
def generate_block_txs {σ : Type} (applyTx : σ → PendingTx → Option σ)
    (packSize : PendingTx → Nat) (maximumBlockSize when : Nat) :
    σ → Nat → List PendingTx → List PendingTx
  | _, _, [] => []
  | store, totalBlockSize, tx :: rest =>
    if tx.expiration < when then
      generate_block_txs applyTx packSize maximumBlockSize when store totalBlockSize rest
    else
      let newTotalSize := totalBlockSize + packSize tx
      if maximumBlockSize ≤ newTotalSize then
        generate_block_txs applyTx packSize maximumBlockSize when store totalBlockSize rest
      else
        match applyTx store tx with
        | some store' =>
          tx :: generate_block_txs applyTx packSize maximumBlockSize when store' newTotalSize rest
        | none =>
          generate_block_txs applyTx packSize maximumBlockSize when store totalBlockSize rest

/-! ## The reindex loop (`database::reindex`) -/

/-- A block header as the controller needs it: block number, id, and the
id of the previous block.  Ids are abstracted to naturals (the id ↦ block
map of the fork database is what matters, not the hash). -/
structure Block where
  num : Nat
  id : Nat
  previous : Nat
deriving DecidableEq, Repr

/-- The `database::reindex` replay loop, as the sequence of blocks passed
to `apply_block` in order: `itr` starts at the first block of the log;
while `itr`'s block number differs from the log head's number the block is
applied and `itr` advances; the block at which the loop stops is then
applied once more after the loop. -/
def reindex_apply_seq (lastBlockNum : Nat) : List Block → List Block
  | [] => []
  | b :: rest =>
    if b.num ≠ lastBlockNum then b :: reindex_apply_seq lastBlockNum rest
    else [b]

/-- `database::reindex` on a block log: asserts the log nonempty, then
runs the replay loop against the log head's block number. -/
def reindex_applied (log : List Block) : Option (List Block) :=
  match log.getLast? with
  | none => none
  | some lastBlock => some (reindex_apply_seq lastBlock.num log)

/-! ## `database::get_payout_extension_cost` -/

/-- `STEEMIT_CASHOUT_WINDOW_SECONDS`: one week (the config header is not
under `src/`; the source's own assertion message reads "Extension time
should be less or equal than a week"). -/
def STEEMIT_CASHOUT_WINDOW_SECONDS : Nat := 60 * 60 * 24 * 7

/-- `database::get_payout_extension_cost(input_comment, input_time)`.
`now` stands for `fc::time_point::now()` and `netRshares` for
`input_comment.net_rshares`; `costPerDay` is the externalized
`STEEMIT_PAYOUT_EXTENSION_COST_PER_DAY`.  After the two `FC_ASSERT`
guards, the return expression is
`asset(((…cost…), SBD_SYMBOL))` — a single constructor argument that is a
C++ comma expression: the cost is computed and discarded, the comma
expression yields `SBD_SYMBOL`, and the one-argument constructor
`asset(SBD_SYMBOL)` uses `SBD_SYMBOL` as the *amount* with the defaulted
symbol `STEEM_SYMBOL`. -/
def get_payout_extension_cost (costPerDay netRshares : Int)
    (inputTime now : Nat) : Option Asset :=
  if (inputTime - now) / (3600 * 24) = 0 then none
  else if STEEMIT_CASHOUT_WINDOW_SECONDS ≤ inputTime - now then none
  else
    let discardedCost : Int :=
      Int.tdiv (((inputTime - now : Nat) : Int) * costPerDay)
        (netRshares * 60 * 60 * 24)
    let commaExpressionValue : Int := (fun _ => (SBD_SYMBOL : Int)) discardedCost
    some (assetOfAmount commaExpressionValue)

/-- The cost `get_payout_extension_cost` computes and then discards — the
amount the intended return value `asset(cost, SBD_SYMBOL)` would carry. -/
def intended_extension_cost (costPerDay netRshares : Int)
    (inputTime now : Nat) : Int :=
  Int.tdiv (((inputTime - now : Nat) : Int) * costPerDay)
    (netRshares * 60 * 60 * 24)

/-! ## The data model read by `database::validate_invariants` -/

/-- `STEEMIT_MAX_PROXY_RECURSION_DEPTH` (externalized config constant;
the proxied-vote buckets are indexed `0..DEPTH-1`). -/
def STEEMIT_MAX_PROXY_RECURSION_DEPTH : Nat := 4

/-- The slice of `account_object` the invariant auditor reads.  All
balances are plain amounts because their symbols are fixed by the object
definition (`balance`, `savings_balance` are STEEM; `sbd_balance`,
`savings_sbd_balance` are SBD; `vesting_shares` is VESTS).
`proxySet = false` models `proxy == STEEMIT_PROXY_TO_SELF_ACCOUNT`. -/
structure GAccount where
  balance : Int
  savings_balance : Int
  sbd_balance : Int
  savings_sbd_balance : Int
  vesting_shares : Int
  proxySet : Bool
  proxied_vsf_votes : List Int
deriving DecidableEq, Repr

/-- Modelled from the spec: `account_object::witness_vote_weight()` (the
account header is not under `src/`) — the account's own vesting shares
plus the total of its proxied-vote buckets ("per-account witness-vote
weight", spec §3 invariant 4). -/
def GAccount.witness_vote_weight (a : GAccount) : Int :=
  a.proxied_vsf_votes.foldl (· + ·) a.vesting_shares

/-- The slice of `witness_object` the auditor reads. -/
structure GWitness where
  votes : Int
deriving DecidableEq, Repr

/-- `convert_request_object`: the amount carries its symbol (the auditor
branches on it). -/
structure ConvertRequest where
  amount : Asset
deriving DecidableEq, Repr

/-- `limit_order_object`: seller, order id, amount for sale, sell price
and creation time (`deferred_fee` is not read by any claim). -/
structure LimitOrder where
  seller : Nat
  orderid : Nat
  for_sale : Int
  sell_price : Price
  created : Nat
deriving DecidableEq, Repr

/-- `limit_order_object::amount_for_sale() = asset(for_sale,
sell_price.base.symbol)`. -/
def LimitOrder.amount_for_sale (o : LimitOrder) : Asset :=
  ⟨o.for_sale, o.sell_price.base.symbol⟩

/-- `limit_order_object::amount_to_receive() = amount_for_sale() *
sell_price`. -/
def LimitOrder.amount_to_receive (o : LimitOrder) : Asset :=
  mulAssetPrice o.amount_for_sale o.sell_price

/-- The slice of `escrow_object` the auditor reads. -/
structure Escrow where
  steem_balance : Int
  sbd_balance : Int
  pending_fee : Asset
deriving DecidableEq, Repr

/-- The slice of `savings_withdraw_object` the auditor reads. -/
structure SavingsWithdraw where
  amount : Asset
deriving DecidableEq, Repr

/-- The slice of `reward_fund_object` the auditor reads. -/
structure RewardFund where
  reward_balance : Int
deriving DecidableEq, Repr

/-- The slice of `dynamic_global_property_object` the auditor reads.
Supplies are amounts (their symbols are fixed by the object
definition). -/
structure GlobalProps where
  current_supply : Int
  current_sbd_supply : Int
  total_vesting_shares : Int
  total_vesting_fund_steem : Int
  total_reward_fund_steem : Int
  virtual_supply : Int
deriving DecidableEq, Repr

/-- Modelled from the spec: `price::is_null()` of the protocol library
(not under `src/`) — equality with the default-constructed price, whose
two amounts are zero. -/
def priceIsNull (p : Price) : Bool :=
  p.base.amount = 0 && p.quote.amount = 0

/-- The chain state as the invariant auditor sees it: one list per object
index it walks, the global properties and the current median feed. -/
structure InvariantState where
  accounts : List GAccount
  witnesses : List GWitness
  convert_requests : List ConvertRequest
  limit_orders : List LimitOrder
  escrows : List Escrow
  savings_withdraws : List SavingsWithdraw
  reward_funds : List RewardFund
  gpo : GlobalProps
  median_feed : Price
deriving Repr

/-- The convert-request walk of `validate_invariants`: accumulate the
STEEM and SBD totals; any other symbol is `FC_ASSERT(false)` (`none`). -/
def convertRequestTotals : List ConvertRequest → Option (Int × Int)
  | [] => some (0, 0)
  | r :: rest =>
    match convertRequestTotals rest with
    | none => none
    | some (s, d) =>
      if r.amount.symbol = STEEM_SYMBOL then some (s + r.amount.amount, d)
      else if r.amount.symbol = SBD_SYMBOL then some (s, d + r.amount.amount)
      else none

/-- The limit-order walk of `validate_invariants`: `for_sale` joins the
STEEM total when the sell price's base is STEEM, the SBD total when it is
SBD, and is ignored otherwise (no assertion in the source). -/
def limitOrderTotals : List LimitOrder → Int × Int
  | [] => (0, 0)
  | o :: rest =>
    let p := limitOrderTotals rest
    if o.sell_price.base.symbol = STEEM_SYMBOL then (p.1 + o.for_sale, p.2)
    else if o.sell_price.base.symbol = SBD_SYMBOL then (p.1, p.2 + o.for_sale)
    else p

/-- The escrow walk of `validate_invariants`: `steem_balance` and
`sbd_balance` always count; the pending fee counts toward the total of
its symbol, any other symbol being `FC_ASSERT(false)`. -/
def escrowTotals : List Escrow → Option (Int × Int)
  | [] => some (0, 0)
  | e :: rest =>
    match escrowTotals rest with
    | none => none
    | some (s, d) =>
      if e.pending_fee.symbol = STEEM_SYMBOL then
        some (s + e.steem_balance + e.pending_fee.amount, d + e.sbd_balance)
      else if e.pending_fee.symbol = SBD_SYMBOL then
        some (s + e.steem_balance, d + e.sbd_balance + e.pending_fee.amount)
      else none

/-- The savings-withdraw walk of `validate_invariants`: the amount joins
the total of its symbol, any other symbol being `FC_ASSERT(false)`. -/
def savingsWithdrawTotals : List SavingsWithdraw → Option (Int × Int)
  | [] => some (0, 0)
  | w :: rest =>
    match savingsWithdrawTotals rest with
    | none => none
    | some (s, d) =>
      if w.amount.symbol = STEEM_SYMBOL then some (s + w.amount.amount, d)
      else if w.amount.symbol = SBD_SYMBOL then some (s, d + w.amount.amount)
      else none

/-- The per-account term of the auditor's `total_vsf_votes` sum: the
account's `witness_vote_weight()` when it proxies to itself, otherwise its
deepest proxied-vote bucket (`STEEMIT_MAX_PROXY_RECURSION_DEPTH > 0` in
every configuration). -/
def GAccount.vsfVoteTerm (a : GAccount) : Int :=
  if a.proxySet then
    a.proxied_vsf_votes.getD (STEEMIT_MAX_PROXY_RECURSION_DEPTH - 1) 0
  else a.witness_vote_weight

/-- `database::validate_invariants`, as a boolean checker: `true` iff
every `FC_ASSERT` in it passes.  In source order: every witness has
`votes < total_vesting_shares`; the account walk accumulates the STEEM /
SBD / VESTS and vote totals; the convert-request, limit-order, escrow and
savings-withdraw walks contribute by symbol; the reward-fund balances, the
vesting fund and the total reward fund join the STEEM total; then the
supply, vesting and vote equalities, `virtual_supply ≥ current_supply`,
and — when the median feed is not null — the virtual-supply equation.
(The comment-index walk computes `total_rshares2` totals that this version
never asserts against anything, so it has no effect on the result.) -/
def validate_invariants (st : InvariantState) : Bool :=
  (st.witnesses.all fun w => w.votes < st.gpo.total_vesting_shares) &&
  match convertRequestTotals st.convert_requests,
      escrowTotals st.escrows,
      savingsWithdrawTotals st.savings_withdraws with
  | some (cs, cd), some (es, ed), some (ws, wd) =>
    let accountSteem := (st.accounts.map fun a => a.balance + a.savings_balance).sum
    let accountSbd := (st.accounts.map fun a => a.sbd_balance + a.savings_sbd_balance).sum
    let accountVesting := (st.accounts.map fun a => a.vesting_shares).sum
    let totalVsfVotes := (st.accounts.map GAccount.vsfVoteTerm).sum
    let (los, lod) := limitOrderTotals st.limit_orders
    let rewardFundSteem := (st.reward_funds.map fun f => f.reward_balance).sum
    let totalSupply := accountSteem + cs + los + es + ws + rewardFundSteem
      + st.gpo.total_vesting_fund_steem + st.gpo.total_reward_fund_steem
    let totalSbd := accountSbd + cd + lod + ed + wd
    (st.gpo.current_supply = totalSupply : Bool) &&
    (st.gpo.current_sbd_supply = totalSbd : Bool) &&
    (st.gpo.total_vesting_shares = accountVesting : Bool) &&
    (st.gpo.total_vesting_shares = totalVsfVotes : Bool) &&
    (st.gpo.current_supply ≤ st.gpo.virtual_supply : Bool) &&
    (priceIsNull st.median_feed ||
      ((mulAssetPrice ⟨st.gpo.current_sbd_supply, SBD_SYMBOL⟩ st.median_feed).amount
          + st.gpo.current_supply = st.gpo.virtual_supply : Bool))
  | _, _, _ => false

/-- The claim's STEEM supply decomposition (spec §3, invariant 1):
account liquid + savings, STEEM held in escrows (balance and any
STEEM-denominated pending fee), STEEM convert requests, STEEM-denominated
limit orders, STEEM-denominated savings withdraws, reward-fund balances,
the total vesting fund and the total reward fund. -/
def claimSteemSupply (st : InvariantState) : Int :=
  (st.accounts.map fun a => a.balance + a.savings_balance).sum
  + (st.escrows.map fun e => e.steem_balance
      + (if e.pending_fee.symbol = STEEM_SYMBOL then e.pending_fee.amount else 0)).sum
  + ((st.convert_requests.filter fun r => r.amount.symbol = STEEM_SYMBOL).map
      fun r => r.amount.amount).sum
  + ((st.limit_orders.filter fun o => o.sell_price.base.symbol = STEEM_SYMBOL).map
      fun o => o.for_sale).sum
  + ((st.savings_withdraws.filter fun w => w.amount.symbol = STEEM_SYMBOL).map
      fun w => w.amount.amount).sum
  + (st.reward_funds.map fun f => f.reward_balance).sum
  + st.gpo.total_vesting_fund_steem + st.gpo.total_reward_fund_steem

/-- The claim's SBD supply decomposition: all SBD holdings — account SBD
and SBD savings, SBD held in escrows (balance and any SBD pending fee),
SBD convert requests, SBD-denominated limit orders and savings
withdraws. -/
def claimSbdSupply (st : InvariantState) : Int :=
  (st.accounts.map fun a => a.sbd_balance + a.savings_sbd_balance).sum
  + (st.escrows.map fun e => e.sbd_balance
      + (if e.pending_fee.symbol = SBD_SYMBOL then e.pending_fee.amount else 0)).sum
  + ((st.convert_requests.filter fun r => r.amount.symbol = SBD_SYMBOL).map
      fun r => r.amount.amount).sum
  + ((st.limit_orders.filter fun o => o.sell_price.base.symbol = SBD_SYMBOL).map
      fun o => o.for_sale).sum
  + ((st.savings_withdraws.filter fun w => w.amount.symbol = SBD_SYMBOL).map
      fun w => w.amount.amount).sum

/-- The claim's VESTS decomposition: the sum of all accounts' vesting
shares. -/
def claimVestingSupply (st : InvariantState) : Int :=
  (st.accounts.map fun a => a.vesting_shares).sum

/-! ## Order matching (`database::match`, `database::fill_order`,
`database::apply_order`)

The embedding tracks each order's fate (`none` = removed from the book);
balance adjustments of the two sellers and the liquidity-reward index — a
separate index never read back by the matching loop — are outside the
claims and are not represented. -/

/-- `database::fill_order(limit_order_object, pays, receives)`: asserts
the pays symbol is the order's sale symbol and differs from the receives
symbol (`none` on failure); removes the order when it pays its whole
`amount_for_sale` (returns `true`); otherwise reduces `for_sale`, and
cancels (removes, returning `true`) when the remainder would receive
nothing at the sale price, else keeps the reduced order (`false`). -/
def fill_limit_order (o : LimitOrder) (pays receives : Asset) :
    Option (Bool × Option LimitOrder) :=
  if o.amount_for_sale.symbol ≠ pays.symbol then none
  else if pays.symbol = receives.symbol then none
  else if pays = o.amount_for_sale then some (true, none)
  else if ({ o with for_sale := o.for_sale - pays.amount } : LimitOrder).amount_to_receive.amount = 0 then
    some (true, none)
  else some (false, some { o with for_sale := o.for_sale - pays.amount })

/-- What one `database::match(new, old, price)` call produces: the
returned bit field (bit 0 = the new order was filled and removed, bit 1 =
the old one), the four computed legs, and what is left of each order. -/
structure MatchResult where
  bits : Nat
  newPays : Asset
  newReceives : Asset
  oldPays : Asset
  oldReceives : Asset
  newRemaining : Option LimitOrder
  oldRemaining : Option LimitOrder
deriving DecidableEq, Repr

/-- `database::match(new_order, old_order, match_price)` for two limit
orders: after the entry `assert`s (symbols opposed, both amounts positive,
match price quoted in the right pair), the smaller side — compared through
`match_price` — pays its entire `amount_for_sale` and the legs are
crossed; each side is then settled by `fill_order`, building the returned
bit field. -/
def match_limit_orders (new_order old_order : LimitOrder)
    (match_price : Price) : Option MatchResult :=
  if new_order.sell_price.quote.symbol ≠ old_order.sell_price.base.symbol then none
  else if new_order.sell_price.base.symbol ≠ old_order.sell_price.quote.symbol then none
  else if ¬(new_order.for_sale > 0 ∧ old_order.for_sale > 0) then none
  else if match_price.quote.symbol ≠ new_order.sell_price.base.symbol then none
  else if match_price.base.symbol ≠ old_order.sell_price.base.symbol then none
  else
    let new_for_sale := new_order.amount_for_sale
    let old_for_sale := old_order.amount_for_sale
    let legs :=
      if new_for_sale.amount ≤ (mulAssetPrice old_for_sale match_price).amount then
        -- the new order is the smaller side: it pays everything
        let old_receives := new_for_sale
        let new_receives := mulAssetPrice new_for_sale match_price
        (new_receives, old_receives)
      else
        -- the old order is the smaller side: it pays everything
        let new_receives := old_for_sale
        let old_receives := mulAssetPrice old_for_sale match_price
        (new_receives, old_receives)
    let new_receives := legs.1
    let old_receives := legs.2
    let old_pays := new_receives
    let new_pays := old_receives
    match fill_limit_order new_order new_pays new_receives with
    | none => none
    | some (newFilled, newRemaining) =>
      match fill_limit_order old_order old_pays old_receives with
      | none => none
      | some (oldFilled, oldRemaining) =>
        some ⟨(if newFilled then 1 else 0) + (if oldFilled then 2 else 0),
          new_pays, new_receives, old_pays, old_receives,
          newRemaining, oldRemaining⟩

/-- The matching loop of `database::apply_order` over the opposing book
(already restricted to crossing prices, best first): call `match` against
each opposing order at that order's sell price; stop when bit 0 reports
the incoming order filled (`finished = result & 1`), otherwise — the old
order having been removed — continue with the next.  Returns what remains
of the incoming order and of the walked part of the book; `none` when a
`match` assertion fails.  Structural recursion on the book makes
termination evident. -/
def apply_order_loop (new_order : LimitOrder) :
    List LimitOrder → Option (Option LimitOrder × List LimitOrder)
  | [] => some (some new_order, [])
  | old :: rest =>
    match match_limit_orders new_order old old.sell_price with
    | none => none
    | some mr =>
      if mr.bits % 2 = 1 then
        some (mr.newRemaining,
          match mr.oldRemaining with
          | some o => o :: rest
          | none => rest)
      else
        match mr.newRemaining with
        | some new' => apply_order_loop new' rest
        | none => some (none, rest)

/-! ## The chain controller (`database::_push_block`, `database::pop_block`)

The object store is abstract (`σ`): `apply_block` enters as a parameter of
type `σ → Block → Except σ σ`, where `.error` means the application threw
somewhere mid-way (the carried value being the partially mutated store the
enclosing undo session discards).

Modelled from the spec: the object store's undo sessions (§4.1, §9;
`chainbase` is not under `src/`).  A retained snapshot of the store stands
for a session's inverse-diff log: `start_undo_session` records the state
at session start, `undo()` restores it, and `session.push()` keeps it on
the undo stack for a later `undo`/`commit`.

Modelled from the spec: the fork database (§4.3; `fork_database.cpp` is
not under `src/`).  `push` makes the pushed block the head only when its
number strictly exceeds the current head's ("fork switch only when
strictly higher height"); `fetch_branch_from` returns the two disjoint
branches from the common ancestor. -/

/-- The fork database: the reversible blocks it holds and the current
head. -/
structure ForkDB where
  items : List Block
  head : Option Block
deriving DecidableEq, Repr

/-- `fork_database::push_block`: insert the block; it becomes the head
only when its number strictly exceeds the current head's.  Returns the
updated database and the resulting head. -/
def ForkDB.push (f : ForkDB) (b : Block) : ForkDB × Block :=
  let items := b :: f.items
  match f.head with
  | none => (⟨items, some b⟩, b)
  | some h =>
    if b.num > h.num then (⟨items, some b⟩, b)
    else (⟨items, some h⟩, h)

/-- Fetch a block of the fork database by id. -/
def ForkDB.get (f : ForkDB) (id : Nat) : Option Block :=
  f.items.find? fun x => x.id = id

/-- `fork_database::remove(id)`: discard the block; a removed head falls
back to the highest-numbered remaining block. -/
def ForkDB.remove (f : ForkDB) (id : Nat) : ForkDB :=
  let items := f.items.filter fun x => x.id ≠ id
  let head :=
    match f.head with
    | some h =>
      if h.id = id then
        items.foldl (fun acc x =>
          match acc with
          | none => some x
          | some y => if x.num > y.num then some x else some y) none
      else some h
    | none => none
  ⟨items, head⟩

/-- `fork_database::set_head`. -/
def ForkDB.setHead (f : ForkDB) (b : Block) : ForkDB :=
  ⟨f.items, some b⟩

/-- `fork_database::pop_block`: the head becomes its parent. -/
def ForkDB.popHead (f : ForkDB) : ForkDB :=
  match f.head with
  | some h => ⟨f.items, f.get h.previous⟩
  | none => f

/-- The ancestor chain of a block id inside the fork database (the block,
its parent, …), cut off by fuel (one more than the database size always
suffices). -/
def ForkDB.chainFrom (f : ForkDB) : Nat → Nat → List Block
  | 0, _ => []
  | fuel + 1, id =>
    match f.get id with
    | none => []
    | some b => b :: f.chainFrom fuel b.previous

/-- `fork_database::fetch_branch_from(a, b)`: the two branches from the
common ancestor, each ordered tip-first and excluding the ancestor
itself. -/
def ForkDB.fetchBranchFrom (f : ForkDB) (idA idB : Nat) :
    List Block × List Block :=
  let ca := f.chainFrom (f.items.length + 1) idA
  let cb := f.chainFrom (f.items.length + 1) idB
  (ca.takeWhile fun x => ¬ cb.any fun y => y.id = x.id,
   cb.takeWhile fun x => ¬ ca.any fun y => y.id = x.id)

/-- The chain-controller state: the object store, the undo stack of
pushed per-block sessions (snapshots at session start, newest first), the
applied main-branch blocks (newest first) and the fork database. -/
structure ChainDB (σ : Type) where
  store : σ
  undoStack : List σ
  headBlocks : List Block
  forkDB : ForkDB
deriving DecidableEq, Repr

/-- `database::head_block_id()` (genesis id 0 on an empty chain). -/
def ChainDB.headBlockId {σ : Type} (db : ChainDB σ) : Nat :=
  match db.headBlocks with
  | b :: _ => b.id
  | [] => 0

/-- `database::head_block_num()`. -/
def ChainDB.headBlockNum {σ : Type} (db : ChainDB σ) : Nat :=
  match db.headBlocks with
  | b :: _ => b.num
  | [] => 0

/-- `database::pop_block`: asserts there is a block to pop, rewinds the
fork-database head, and `undo()`s the head block's session, restoring the
store to the session-start snapshot. -/
def pop_block {σ : Type} (db : ChainDB σ) : Option (ChainDB σ) :=
  match db.headBlocks, db.undoStack with
  | _ :: restBlocks, s :: restStack =>
    some ⟨s, restStack, restBlocks, db.forkDB.popHead⟩
  | _, _ => none

/-- The `while (head_block_id() != target) pop_block();` loop of
`database::_push_block`, with fuel (the applied-chain length suffices);
`none` when a pop fails before the target is reached. -/
def pop_until {σ : Type} (targetId : Nat) :
    Nat → ChainDB σ → Option (ChainDB σ)
  | 0, db => if db.headBlockId = targetId then some db else none
  | fuel + 1, db =>
    if db.headBlockId = targetId then some db
    else
      match pop_block db with
      | some db' => pop_until targetId fuel db'
      | none => none

/-- The branch re-application loop of `database::_push_block`: apply each
block (oldest first) under a fresh undo session and `push()` it.  On an
exception the session is undone; the state at the failure point and the
not-yet-applied tail (the failing block first) are returned as the
error. -/
def apply_branch {σ : Type} (applyBlock : σ → Block → Except σ σ) :
    ChainDB σ → List Block → Except (ChainDB σ × List Block) (ChainDB σ)
  | db, [] => .ok db
  | db, b :: rest =>
    match applyBlock db.store b with
    | .ok s' =>
      apply_branch applyBlock ⟨s', db.store :: db.undoStack, b :: db.headBlocks, db.forkDB⟩ rest
    | .error _ => .error (db, b :: rest)

/-- `database::_push_block(new_block)`.  Unless `skip_fork_db` is set, the
block first goes into the fork database.  When the resulting fork head
does not build on the current head: switch forks — pop to the common
ancestor, re-apply the new branch, and on any failure prune the bad
branch, restore the old one and rethrow — but only when the fork head's
number strictly exceeds the current head's; otherwise the block merely
stays in the fork database and the call returns `false`.  When the fork
head does build on the current head, apply the block under a session; a
throw removes the block's id from the fork database and propagates.  The
`Except` error carries the controller state after the failure
handling. -/
def push_block {σ : Type} (applyBlock : σ → Block → Except σ σ)
    (skipForkDb : Bool) (db : ChainDB σ) (new_block : Block) :
    Except (ChainDB σ) (ChainDB σ × Bool) :=
  let applySimple : ChainDB σ → Except (ChainDB σ) (ChainDB σ × Bool) := fun db =>
    match applyBlock db.store new_block with
    | .ok s' =>
      .ok (⟨s', db.store :: db.undoStack, new_block :: db.headBlocks, db.forkDB⟩, false)
    | .error _ =>
      .error { db with forkDB := db.forkDB.remove new_block.id }
  if skipForkDb then applySimple db
  else
    let pushed := db.forkDB.push new_block
    let db' : ChainDB σ := { db with forkDB := pushed.1 }
    let new_head := pushed.2
    if new_head.previous ≠ db'.headBlockId then
      if new_head.num > db'.headBlockNum then
        let branches := db'.forkDB.fetchBranchFrom new_head.id db'.headBlockId
        let ancestorId :=
          match branches.2.getLast? with
          | some oldest => oldest.previous
          | none => db'.headBlockId
        match pop_until ancestorId db'.headBlocks.length db' with
        | none => .error db'
        | some dbAtAncestor =>
          match apply_branch applyBlock dbAtAncestor branches.1.reverse with
          | .ok dbSwitched => .ok (dbSwitched, true)
          | .error (dbFail, badBlocks) =>
            let prunedFork := badBlocks.foldl (fun acc x => ForkDB.remove acc x.id) dbFail.forkDB
            let restoredFork :=
              match branches.2.head? with
              | some oldHead => prunedFork.setHead oldHead
              | none => prunedFork
            let dbFail' := { dbFail with forkDB := restoredFork }
            match pop_until ancestorId dbFail'.headBlocks.length dbFail' with
            | none => .error dbFail'
            | some dbBack =>
              match apply_branch applyBlock dbBack branches.2.reverse with
              | .ok dbRestored => .error dbRestored
              | .error (dbX, _) => .error dbX
      else
        .ok (db', false)
    else
      applySimple db'

/-! # Theorems -/

/-! ## C6 — slot arithmetic -/

/-- C6, counterexample: the claim says `get_slot_time(0)` equals the head
block time; on a chain whose head block (number 1) carries time 12346 the
source returns the zero time point instead. -/
theorem slot_time_zero_counterexample :
    get_slot_time ⟨1, 12346⟩ 0 ≠ (⟨1, 12346⟩ : SlotState).time := by
  decide

/-- C6, amended: on a chain with at least one block, `get_slot_time(0)`
is the zero time point (not the head block time); for `N ≥ 1`,
`get_slot_time(N)` is the head block time rounded down to a
`BLOCK_INTERVAL` boundary plus `N × BLOCK_INTERVAL`; and
`get_slot_at_time(t)` is 0 before slot 1's time and
`⌊(t − slot1_time) / BLOCK_INTERVAL⌋ + 1` from then on. -/
theorem slot_arithmetic_amended (s : SlotState) (h : 1 ≤ s.headBlockNum) :
    get_slot_time s 0 = 0 ∧
    (∀ n, 1 ≤ n → get_slot_time s n =
      s.time / STEEMIT_BLOCK_INTERVAL * STEEMIT_BLOCK_INTERVAL
        + n * STEEMIT_BLOCK_INTERVAL) ∧
    (∀ t, t < get_slot_time s 1 → get_slot_at_time s t = 0) ∧
    (∀ t, get_slot_time s 1 ≤ t →
      get_slot_at_time s t =
        (t - get_slot_time s 1) / STEEMIT_BLOCK_INTERVAL + 1) := by
  have hnum : s.headBlockNum ≠ 0 := by omega
  refine ⟨by simp [get_slot_time], fun n hn => ?_, fun t ht => ?_, fun t ht => ?_⟩
  · have hn0 : n ≠ 0 := by omega
    simp [get_slot_time, hn0, hnum]
  · simp only [get_slot_at_time]
    rw [if_pos ht]
  · simp only [get_slot_at_time]
    rw [if_neg (not_lt.mpr ht)]

/-- C6, witness for `slot_arithmetic_amended` at a concrete state. -/
theorem slot_arithmetic_amended_witness :
    1 ≤ (⟨1, 12346⟩ : SlotState).headBlockNum ∧
    (get_slot_time ⟨1, 12346⟩ 0 = 0 ∧
      (∀ n, 1 ≤ n → get_slot_time ⟨1, 12346⟩ n =
        12346 / STEEMIT_BLOCK_INTERVAL * STEEMIT_BLOCK_INTERVAL
          + n * STEEMIT_BLOCK_INTERVAL) ∧
      (∀ t, t < get_slot_time ⟨1, 12346⟩ 1 → get_slot_at_time ⟨1, 12346⟩ t = 0) ∧
      (∀ t, get_slot_time ⟨1, 12346⟩ 1 ≤ t →
        get_slot_at_time ⟨1, 12346⟩ t =
          (t - get_slot_time ⟨1, 12346⟩ 1) / STEEMIT_BLOCK_INTERVAL + 1)) :=
  ⟨by decide, slot_arithmetic_amended ⟨1, 12346⟩ (by decide)⟩

/-! ## C9 — `get_payout_extension_cost` drops the SBD symbol -/

/-- C9: for every comment and extension time passing the preconditions
(at least one day and less than the cashout window ahead), the comma
expression inside the `asset(...)` constructor call discards the computed
cost: the returned asset has the numeric value of `SBD_SYMBOL` as its
amount and the defaulted `STEEM_SYMBOL` as its symbol, so it is not the
computed cost denominated in SBD (nor any SBD-denominated asset). -/
theorem payout_extension_cost_drops_symbol (costPerDay netRshares : Int)
    (inputTime now : Nat)
    (h1 : 0 < (inputTime - now) / (3600 * 24))
    (h2 : inputTime - now < STEEMIT_CASHOUT_WINDOW_SECONDS) :
    get_payout_extension_cost costPerDay netRshares inputTime now
        = some (assetOfAmount (SBD_SYMBOL : Int)) ∧
    (assetOfAmount (SBD_SYMBOL : Int)).symbol = STEEM_SYMBOL ∧
    ∀ amt : Int, assetOfAmount (SBD_SYMBOL : Int) ≠ Asset.mk amt SBD_SYMBOL := by
  refine ⟨?_, rfl, fun amt => ?_⟩
  · have h1' : ¬((inputTime - now) / (3600 * 24) = 0) := by omega
    have h2' : ¬(STEEMIT_CASHOUT_WINDOW_SECONDS ≤ inputTime - now) := by omega
    simp [get_payout_extension_cost, h1', h2']
  · simp [assetOfAmount, Asset.mk.injEq, STEEM_SYMBOL, SBD_SYMBOL]

/-- C9, witness for `payout_extension_cost_drops_symbol`: extension by
exactly one day. -/
theorem payout_extension_cost_drops_symbol_witness :
    (0 < (186400 - 100000) / (3600 * 24) ∧
      186400 - 100000 < STEEMIT_CASHOUT_WINDOW_SECONDS) ∧
    (get_payout_extension_cost 10 1000 186400 100000
        = some (assetOfAmount (SBD_SYMBOL : Int)) ∧
      (assetOfAmount (SBD_SYMBOL : Int)).symbol = STEEM_SYMBOL ∧
      ∀ amt : Int, assetOfAmount (SBD_SYMBOL : Int) ≠ Asset.mk amt SBD_SYMBOL) :=
  ⟨⟨by decide, by decide⟩,
    payout_extension_cost_drops_symbol 10 1000 186400 100000 (by decide) (by decide)⟩

/-! ## C5 — last-irreversible computation -/

/-- C5, counterexample: with the deployed constants
(`STEEMIT_START_MINER_VOTING_BLOCK` = one hour of 3-second blocks = 1200,
`STEEMIT_MAX_WITNESSES` = 21, `STEEMIT_IRREVERSIBLE_THRESHOLD` = 75%), a
chain at head 100 with `last_irreversible = 90` and all 21 scheduled
witnesses confirming block 100 yields 79 = `head − MAX_WITNESSES`: not
`max(90, 100)` as the claim's rank rule says, and strictly below the
previous value, so `last_irreversible_block_num` decreased. -/
theorem update_last_irreversible_pre_voting_counterexample :
    update_last_irreversible_block ⟨1200, 21, 7500⟩ 100 90 (List.replicate 21 100) = 79 ∧
    ((List.replicate 21 100 : List Nat).insertionSort (· ≤ ·)).getD
        ((STEEMIT_100_PERCENT - 7500) * (List.replicate 21 100 : List Nat).length
          / STEEMIT_100_PERCENT) 0 = 100 ∧
    (79 : Nat) ≠ max 90 100 ∧ (79 : Nat) < 90 := by
  refine ⟨by decide, by decide, by decide, by decide⟩

/-- C5, amended: once the head block number has reached
`STEEMIT_START_MINER_VOTING_BLOCK`, the candidate is the value at rank
`⌊(100% − IRREVERSIBLE_THRESHOLD) × N / 100%⌋` from the low end of the
scheduled witnesses' `last_confirmed_block_num` values, the new value is
`max(current, candidate)`, and the call never lowers
`last_irreversible_block_num`.  (Before that block the source instead sets
it to `head − STEEMIT_MAX_WITNESSES` once the head is past
`STEEMIT_MAX_WITNESSES`, as the counterexample shows.) -/
theorem update_last_irreversible_voting (c : IrreversibilityConsts)
    (headBlockNum lastIrreversible : Nat) (confirms : List Nat)
    (hregime : c.startMinerVotingBlock ≤ headBlockNum) :
    update_last_irreversible_block c headBlockNum lastIrreversible confirms
      = max lastIrreversible
          ((confirms.insertionSort (· ≤ ·)).getD
            ((STEEMIT_100_PERCENT - c.irreversibleThreshold) * confirms.length
              / STEEMIT_100_PERCENT) 0) ∧
    lastIrreversible ≤
      update_last_irreversible_block c headBlockNum lastIrreversible confirms := by
  have hlt : ¬(headBlockNum < c.startMinerVotingBlock) := by omega
  simp only [update_last_irreversible_block, if_neg hlt]
  set cand := (confirms.insertionSort (· ≤ ·)).getD
    ((STEEMIT_100_PERCENT - c.irreversibleThreshold) * confirms.length
      / STEEMIT_100_PERCENT) 0 with hcand
  by_cases h : cand > lastIrreversible
  · rw [if_pos h]
    constructor
    · omega
    · omega
  · rw [if_neg h]
    constructor
    · omega
    · omega

/-- C5, witness for `update_last_irreversible_voting`: 21 witnesses in
the voting regime, threshold 75%. -/
theorem update_last_irreversible_voting_witness :
    (1200 : Nat) ≤ 5000 ∧
    (update_last_irreversible_block ⟨1200, 21, 7500⟩ 5000 4000
        (List.replicate 11 4990 ++ List.replicate 10 4900)
      = max 4000
          (((List.replicate 11 4990 ++ List.replicate 10 4900 : List Nat).insertionSort (· ≤ ·)).getD
            ((STEEMIT_100_PERCENT - 7500)
              * (List.replicate 11 4990 ++ List.replicate 10 4900 : List Nat).length
              / STEEMIT_100_PERCENT) 0) ∧
      (4000 : Nat) ≤ update_last_irreversible_block ⟨1200, 21, 7500⟩ 5000 4000
        (List.replicate 11 4990 ++ List.replicate 10 4900)) :=
  ⟨by decide,
    update_last_irreversible_voting ⟨1200, 21, 7500⟩ 5000 4000
      (List.replicate 11 4990 ++ List.replicate 10 4900) (by decide)⟩

/-! ## C7 — pending-transaction selection during block generation -/

/-- C7, counterexample: the expiration guard in `_generate_block` is
strict (`tx.expiration < when`), so a pending transaction whose
expiration *equals* the production timestamp is not dropped: with
`when = 5`, a transaction expiring at 5 is included in the block being
built, contradicting the claim that every transaction with
`expiration ≤ when` is dropped. -/
theorem generate_block_equal_expiration_counterexample :
    (⟨5, 0⟩ : PendingTx).expiration ≤ 5 ∧
    ⟨5, 0⟩ ∈ generate_block_txs (σ := Unit) (fun s _ => some s) (fun _ => 1)
      100 5 () 10 [⟨5, 0⟩] := by
  constructor
  · decide
  · simp [generate_block_txs]

/-- C7, amended: during block generation every pending transaction whose
expiration is *strictly before* the production timestamp is dropped (one
expiring exactly at `when` is kept, as the counterexample shows), and a
transaction that would push the accumulated block size to
`maximum_block_size` or beyond is postponed, so the accumulated size —
seeded with the header size — stays strictly below
`maximum_block_size`. -/
theorem generate_block_txs_spec {σ : Type} (applyTx : σ → PendingTx → Option σ)
    (packSize : PendingTx → Nat) (maximumBlockSize when : Nat)
    (store : σ) (totalBlockSize : Nat) (pending : List PendingTx)
    (htotal : totalBlockSize < maximumBlockSize) :
    (∀ tx ∈ generate_block_txs applyTx packSize maximumBlockSize when
        store totalBlockSize pending, when ≤ tx.expiration) ∧
    totalBlockSize +
      ((generate_block_txs applyTx packSize maximumBlockSize when
        store totalBlockSize pending).map packSize).sum < maximumBlockSize := by
  induction pending generalizing store totalBlockSize with
  | nil => simpa [generate_block_txs] using htotal
  | cons tx rest ih =>
    by_cases hexp : tx.expiration < when
    · simpa [generate_block_txs, hexp] using ih store totalBlockSize htotal
    · by_cases hsize : maximumBlockSize ≤ totalBlockSize + packSize tx
      · simpa [generate_block_txs, hexp, hsize] using ih store totalBlockSize htotal
      · cases happ : applyTx store tx with
        | none =>
          simpa [generate_block_txs, hexp, hsize, happ] using
            ih store totalBlockSize htotal
        | some store' =>
          have hnew : totalBlockSize + packSize tx < maximumBlockSize := by omega
          obtain ⟨hmem, hsum⟩ := ih store' (totalBlockSize + packSize tx) hnew
          constructor
          · intro tx' htx'
            simp only [generate_block_txs, if_neg hexp, if_neg hsize, happ,
              List.mem_cons] at htx'
            rcases htx' with rfl | htx'
            · omega
            · exact hmem tx' htx'
          · simp only [generate_block_txs, if_neg hexp, if_neg hsize, happ,
              List.map_cons, List.sum_cons]
            omega

/-- C7, witness for `generate_block_txs_spec`: two pending transactions,
one strictly expired (dropped) and one alive. -/
theorem generate_block_txs_spec_witness :
    (10 : Nat) < 100 ∧
    ((∀ tx ∈ generate_block_txs (σ := Unit) (fun s _ => some s) (fun _ => 1)
        100 5 () 10 [⟨4, 0⟩, ⟨9, 1⟩], 5 ≤ tx.expiration) ∧
      10 + ((generate_block_txs (σ := Unit) (fun s _ => some s) (fun _ => 1)
        100 5 () 10 [⟨4, 0⟩, ⟨9, 1⟩]).map (fun _ => 1)).sum < 100) :=
  ⟨by decide,
    generate_block_txs_spec (σ := Unit) (fun s _ => some s) (fun _ => 1)
      100 5 () 10 [⟨4, 0⟩, ⟨9, 1⟩] (by decide)⟩

/-! ## C8 — the reindex loop -/

/-- C8, counterexample: on a two-block log the reindex loop applies the
final block exactly once (the loop exits *without* applying it and the
post-loop call applies it), so the claim that the final block is applied
twice is false. -/
theorem reindex_final_block_once_counterexample :
    reindex_applied [⟨1, 1, 0⟩, ⟨2, 2, 1⟩] = some [⟨1, 1, 0⟩, ⟨2, 2, 1⟩] ∧
    List.count (⟨2, 2, 1⟩ : Block) [(⟨1, 1, 0⟩ : Block), ⟨2, 2, 1⟩] = 1 ∧
    (1 : Nat) ≠ 2 := by
  refine ⟨by decide, by decide, by decide⟩

/-- C8, amended: on a nonempty block log with pairwise distinct block
numbers, the reindex replay applies exactly the blocks of the log, in
order, each exactly once — the final block included, which is applied by
the call after the loop rather than inside it. -/
theorem reindex_each_block_once (log : List Block) (hne : log ≠ [])
    (hdist : log.Pairwise fun a b => a.num ≠ b.num) :
    reindex_applied log = some log := by
  induction log with
  | nil => exact absurd rfl hne
  | cons b rest ih =>
    cases rest with
    | nil => simp [reindex_applied, reindex_apply_seq]
    | cons r rs =>
      have htail : reindex_applied (r :: rs) = some (r :: rs) :=
        ih (by simp) hdist.tail
      have hne' : (r :: rs) ≠ [] := by simp
      have hL : (r :: rs).getLast? = some ((r :: rs).getLast hne') :=
        List.getLast?_eq_getLast_of_ne_nil hne'
      set L := (r :: rs).getLast hne' with hLdef
      have hLmem : L ∈ r :: rs := List.getLast_mem hne'
      have hbnum : b.num ≠ L.num := (List.pairwise_cons.mp hdist).1 L hLmem
      have hseq : reindex_apply_seq L.num (r :: rs) = r :: rs := by
        have h2 := htail
        rw [reindex_applied, hL] at h2
        exact Option.some_injective _ h2
      rw [reindex_applied, List.getLast?_cons_cons, hL]
      show some (reindex_apply_seq L.num (b :: r :: rs)) = some (b :: r :: rs)
      rw [show reindex_apply_seq L.num (b :: r :: rs)
            = if b.num ≠ L.num then b :: reindex_apply_seq L.num (r :: rs) else [b]
          from rfl,
        if_pos hbnum, hseq]

/-- C8, witness for `reindex_each_block_once` on a three-block log. -/
theorem reindex_each_block_once_witness :
    (([⟨1, 1, 0⟩, ⟨2, 2, 1⟩, ⟨3, 3, 2⟩] : List Block) ≠ [] ∧
      ([⟨1, 1, 0⟩, ⟨2, 2, 1⟩, ⟨3, 3, 2⟩] : List Block).Pairwise
        (fun a b => a.num ≠ b.num)) ∧
    reindex_applied [⟨1, 1, 0⟩, ⟨2, 2, 1⟩, ⟨3, 3, 2⟩]
      = some [⟨1, 1, 0⟩, ⟨2, 2, 1⟩, ⟨3, 3, 2⟩] :=
  ⟨⟨by decide, by decide⟩,
    reindex_each_block_once [⟨1, 1, 0⟩, ⟨2, 2, 1⟩, ⟨3, 3, 2⟩]
      (by decide) (by decide)⟩

/-! ## C2/C3/C4 — `_push_block`, `pop_block` and rollback

Shared helper lemmas about the paths of `push_block`. -/

/-- `fork_database::push` always inserts the block into the database,
whether or not it becomes the head. -/
theorem ForkDB.push_items (f : ForkDB) (b : Block) :
    (f.push b).1.items = b :: f.items := by
  unfold ForkDB.push
  cases f.head with
  | none => rfl
  | some h =>
    by_cases hb : b.num > h.num <;> simp [hb]

/-- The stale-branch path of `push_block`: when the fork head does not
build on the current head and its number does not exceed the current
head's, the call only records the block in the fork database and returns
`false`. -/
theorem push_block_not_higher {σ : Type} (applyBlock : σ → Block → Except σ σ)
    (db : ChainDB σ) (b : Block)
    (hprev : (db.forkDB.push b).2.previous ≠ db.headBlockId)
    (hle : (db.forkDB.push b).2.num ≤ db.headBlockNum) :
    push_block applyBlock false db b
      = .ok ({db with forkDB := (db.forkDB.push b).1}, false) := by
  have hid : ({db with forkDB := (db.forkDB.push b).1} : ChainDB σ).headBlockId
      = db.headBlockId := rfl
  have hnum : ({db with forkDB := (db.forkDB.push b).1} : ChainDB σ).headBlockNum
      = db.headBlockNum := rfl
  simp only [push_block, Bool.false_eq_true, if_false]
  rw [if_pos (by rw [hid]; exact hprev)]
  rw [if_neg (by rw [hnum]; omega)]

/-- The extend path of `push_block`, successful apply: the block is
applied under a session whose start snapshot is pushed onto the undo
stack. -/
theorem push_block_extend_ok {σ : Type} (applyBlock : σ → Block → Except σ σ)
    (db : ChainDB σ) (b : Block) (s' : σ)
    (hprev : ¬((db.forkDB.push b).2.previous ≠ db.headBlockId))
    (happly : applyBlock db.store b = .ok s') :
    push_block applyBlock false db b =
      .ok (⟨s', db.store :: db.undoStack, b :: db.headBlocks, (db.forkDB.push b).1⟩, false) := by
  have hid : ({db with forkDB := (db.forkDB.push b).1} : ChainDB σ).headBlockId
      = db.headBlockId := rfl
  simp only [push_block, Bool.false_eq_true, if_false]
  rw [if_neg (by rw [hid]; exact hprev)]
  show (match applyBlock db.store b with
    | .ok s' =>
      (.ok (⟨s', db.store :: db.undoStack, b :: db.headBlocks, (db.forkDB.push b).1⟩, false) :
        Except (ChainDB σ) (ChainDB σ × Bool))
    | .error _ =>
      .error { db with forkDB := ((db.forkDB.push b).1).remove b.id }) = _
  rw [happly]

/-- The extend path of `push_block`, failing apply: the session is
undone, the block's id is removed from the fork database and the
exception propagates. -/
theorem push_block_extend_error {σ : Type} (applyBlock : σ → Block → Except σ σ)
    (db : ChainDB σ) (b : Block) (spart : σ)
    (hprev : ¬((db.forkDB.push b).2.previous ≠ db.headBlockId))
    (happly : applyBlock db.store b = .error spart) :
    push_block applyBlock false db b =
      .error { db with forkDB := ((db.forkDB.push b).1).remove b.id } := by
  have hid : ({db with forkDB := (db.forkDB.push b).1} : ChainDB σ).headBlockId
      = db.headBlockId := rfl
  simp only [push_block, Bool.false_eq_true, if_false]
  rw [if_neg (by rw [hid]; exact hprev)]
  show (match applyBlock db.store b with
    | .ok s' =>
      (.ok (⟨s', db.store :: db.undoStack, b :: db.headBlocks, (db.forkDB.push b).1⟩, false) :
        Except (ChainDB σ) (ChainDB σ × Bool))
    | .error _ =>
      .error { db with forkDB := ((db.forkDB.push b).1).remove b.id }) = _
  rw [happly]

/-- C2: when the fork-database head after inserting the pushed block does
not build on the current head, `_push_block` switches branches only when
that head's number strictly exceeds the current head block number
(returning `true` only implies strictly greater height); when the height
is lower or equal, the block is stored in the fork database while the
store, the undo stack and the applied chain are left unchanged, and the
call returns `false`. -/
theorem push_block_fork_switch_policy {σ : Type}
    (applyBlock : σ → Block → Except σ σ) (db : ChainDB σ) (b : Block)
    (hprev : (db.forkDB.push b).2.previous ≠ db.headBlockId) :
    (∀ db2, push_block applyBlock false db b = .ok (db2, true) →
      db.headBlockNum < (db.forkDB.push b).2.num) ∧
    ((db.forkDB.push b).2.num ≤ db.headBlockNum →
      push_block applyBlock false db b
        = .ok ({db with forkDB := (db.forkDB.push b).1}, false) ∧
      b ∈ (db.forkDB.push b).1.items) := by
  constructor
  · intro db2 hok
    by_contra hgt
    push_neg at hgt
    rw [push_block_not_higher applyBlock db b hprev hgt] at hok
    simp at hok
  · intro hle
    exact ⟨push_block_not_higher applyBlock db b hprev hle, by
      rw [ForkDB.push_items]; exact List.mem_cons_self _ _⟩

/-- C2, witness for `push_block_fork_switch_policy`: a block at the same
height as the head, on another branch. -/
theorem push_block_fork_switch_policy_witness :
    ((((⟨0, [], [⟨1, 10, 0⟩], ⟨[⟨1, 10, 0⟩], some ⟨1, 10, 0⟩⟩⟩ : ChainDB Nat)).forkDB.push
        ⟨1, 11, 99⟩).2.previous
      ≠ (⟨0, [], [⟨1, 10, 0⟩], ⟨[⟨1, 10, 0⟩], some ⟨1, 10, 0⟩⟩⟩ : ChainDB Nat).headBlockId) ∧
    ((∀ db2, push_block (fun s _ => .ok (s + 1)) false
        ⟨0, [], [⟨1, 10, 0⟩], ⟨[⟨1, 10, 0⟩], some ⟨1, 10, 0⟩⟩⟩ ⟨1, 11, 99⟩ = .ok (db2, true) →
      (⟨0, [], [⟨1, 10, 0⟩], ⟨[⟨1, 10, 0⟩], some ⟨1, 10, 0⟩⟩⟩ : ChainDB Nat).headBlockNum
        < ((⟨0, [], [⟨1, 10, 0⟩], ⟨[⟨1, 10, 0⟩], some ⟨1, 10, 0⟩⟩⟩ : ChainDB Nat).forkDB.push
            ⟨1, 11, 99⟩).2.num) ∧
    ((((⟨0, [], [⟨1, 10, 0⟩], ⟨[⟨1, 10, 0⟩], some ⟨1, 10, 0⟩⟩⟩ : ChainDB Nat)).forkDB.push
        ⟨1, 11, 99⟩).2.num
        ≤ (⟨0, [], [⟨1, 10, 0⟩], ⟨[⟨1, 10, 0⟩], some ⟨1, 10, 0⟩⟩⟩ : ChainDB Nat).headBlockNum →
      push_block (fun s _ => .ok (s + 1)) false
          ⟨0, [], [⟨1, 10, 0⟩], ⟨[⟨1, 10, 0⟩], some ⟨1, 10, 0⟩⟩⟩ ⟨1, 11, 99⟩
        = .ok ({(⟨0, [], [⟨1, 10, 0⟩], ⟨[⟨1, 10, 0⟩], some ⟨1, 10, 0⟩⟩⟩ : ChainDB Nat) with
            forkDB := ((⟨0, [], [⟨1, 10, 0⟩], ⟨[⟨1, 10, 0⟩], some ⟨1, 10, 0⟩⟩⟩ : ChainDB Nat).forkDB.push
              ⟨1, 11, 99⟩).1}, false) ∧
      (⟨1, 11, 99⟩ : Block) ∈ (((⟨0, [], [⟨1, 10, 0⟩], ⟨[⟨1, 10, 0⟩], some ⟨1, 10, 0⟩⟩⟩ : ChainDB Nat)).forkDB.push
          ⟨1, 11, 99⟩).1.items)) :=
  ⟨by decide,
    push_block_fork_switch_policy (fun s _ => .ok (s + 1))
      ⟨0, [], [⟨1, 10, 0⟩], ⟨[⟨1, 10, 0⟩], some ⟨1, 10, 0⟩⟩⟩ ⟨1, 11, 99⟩ (by decide)⟩

/-- C3: a block successfully applied on top of state `S` by `push_block`
(extend path) pushes exactly one undo session; `pop_block` then unwinds it
and the object store equals `S` again. -/
theorem push_then_pop_restores_store {σ : Type}
    (applyBlock : σ → Block → Except σ σ) (db : ChainDB σ) (b : Block) (s' : σ)
    (hprev : (db.forkDB.push b).2.previous = db.headBlockId)
    (happly : applyBlock db.store b = .ok s') :
    ∃ db2 db3, push_block applyBlock false db b = .ok (db2, false) ∧
      db2.store = s' ∧ pop_block db2 = some db3 ∧ db3.store = db.store := by
  refine ⟨⟨s', db.store :: db.undoStack, b :: db.headBlocks, (db.forkDB.push b).1⟩,
    ⟨db.store, db.undoStack, db.headBlocks, ((db.forkDB.push b).1).popHead⟩,
    ?_, rfl, rfl, rfl⟩
  exact push_block_extend_ok applyBlock db b s' (by rw [hprev]; exact fun h => h rfl) happly

/-- C3, witness for `push_then_pop_restores_store`: a block extending the
head of a one-block chain. -/
theorem push_then_pop_restores_store_witness :
    ((((⟨0, [], [⟨1, 10, 0⟩], ⟨[⟨1, 10, 0⟩], some ⟨1, 10, 0⟩⟩⟩ : ChainDB Nat)).forkDB.push
        ⟨2, 11, 10⟩).2.previous
        = (⟨0, [], [⟨1, 10, 0⟩], ⟨[⟨1, 10, 0⟩], some ⟨1, 10, 0⟩⟩⟩ : ChainDB Nat).headBlockId ∧
      (fun (s : Nat) (_ : Block) => (Except.ok (s + 1) : Except Nat Nat)) 0 ⟨2, 11, 10⟩
        = .ok 1) ∧
    (∃ db2 db3, push_block (fun s _ => .ok (s + 1)) false
        ⟨0, [], [⟨1, 10, 0⟩], ⟨[⟨1, 10, 0⟩], some ⟨1, 10, 0⟩⟩⟩ ⟨2, 11, 10⟩ = .ok (db2, false) ∧
      db2.store = 1 ∧ pop_block db2 = some db3 ∧ db3.store = 0) :=
  ⟨⟨by decide, rfl⟩,
    push_then_pop_restores_store (fun s _ => .ok (s + 1))
      ⟨0, [], [⟨1, 10, 0⟩], ⟨[⟨1, 10, 0⟩], some ⟨1, 10, 0⟩⟩⟩ ⟨2, 11, 10⟩ 1 (by decide) rfl⟩

/-- C4: when applying the pushed block throws (extend path), the block's
session is undone — the resulting state carries the store, undo stack and
applied chain of the pre-push state — the block's id is removed from the
fork database, and the exception propagates (the call returns the error
outcome); no partially applied block remains. -/
theorem push_block_failure_rolls_back {σ : Type}
    (applyBlock : σ → Block → Except σ σ) (db : ChainDB σ) (b : Block) (spart : σ)
    (hprev : (db.forkDB.push b).2.previous = db.headBlockId)
    (happly : applyBlock db.store b = .error spart) :
    ∃ dbE, push_block applyBlock false db b = .error dbE ∧
      dbE.store = db.store ∧ dbE.undoStack = db.undoStack ∧
      dbE.headBlocks = db.headBlocks ∧
      ∀ x ∈ dbE.forkDB.items, x.id ≠ b.id := by
  refine ⟨{ db with forkDB := ((db.forkDB.push b).1).remove b.id },
    ?_, rfl, rfl, rfl, ?_⟩
  · exact push_block_extend_error applyBlock db b spart
      (by rw [hprev]; exact fun h => h rfl) happly
  · intro x hx
    have hx' : x ∈ ((db.forkDB.push b).1).items.filter (fun y => y.id ≠ b.id) := hx
    simp only [List.mem_filter, decide_eq_true_eq] at hx'
    exact hx'.2

/-- C4, witness for `push_block_failure_rolls_back`: an extending block
whose application throws. -/
theorem push_block_failure_rolls_back_witness :
    ((((⟨0, [], [⟨1, 10, 0⟩], ⟨[⟨1, 10, 0⟩], some ⟨1, 10, 0⟩⟩⟩ : ChainDB Nat)).forkDB.push
        ⟨2, 11, 10⟩).2.previous
        = (⟨0, [], [⟨1, 10, 0⟩], ⟨[⟨1, 10, 0⟩], some ⟨1, 10, 0⟩⟩⟩ : ChainDB Nat).headBlockId ∧
      (fun (s : Nat) (_ : Block) => (Except.error s : Except Nat Nat)) 0 ⟨2, 11, 10⟩
        = .error 0) ∧
    (∃ dbE, push_block (fun s _ => .error s) false
        ⟨0, [], [⟨1, 10, 0⟩], ⟨[⟨1, 10, 0⟩], some ⟨1, 10, 0⟩⟩⟩ ⟨2, 11, 10⟩ = .error dbE ∧
      dbE.store = 0 ∧ dbE.undoStack = [] ∧
      dbE.headBlocks = [⟨1, 10, 0⟩] ∧
      ∀ x ∈ dbE.forkDB.items, x.id ≠ (⟨2, 11, 10⟩ : Block).id) :=
  ⟨⟨by decide, rfl⟩,
    push_block_failure_rolls_back (fun s _ => .error s)
      ⟨0, [], [⟨1, 10, 0⟩], ⟨[⟨1, 10, 0⟩], some ⟨1, 10, 0⟩⟩⟩ ⟨2, 11, 10⟩ 0 (by decide) rfl⟩

/-! ## C1 — the invariant auditor's conservation equations -/

/-- The convert-request walk accumulates exactly the filtered STEEM and
SBD sums. -/
theorem convertRequestTotals_spec (l : List ConvertRequest) (s d : Int)
    (h : convertRequestTotals l = some (s, d)) :
    s = ((l.filter fun r => r.amount.symbol = STEEM_SYMBOL).map
        fun r => r.amount.amount).sum ∧
    d = ((l.filter fun r => r.amount.symbol = SBD_SYMBOL).map
        fun r => r.amount.amount).sum := by
  induction l generalizing s d with
  | nil =>
    simp only [convertRequestTotals, Option.some.injEq, Prod.mk.injEq] at h
    simp [← h.1, ← h.2]
  | cons r rest ih =>
    rw [convertRequestTotals] at h
    split at h
    · exact absurd h (by simp)
    · rename_i s0 d0 heq
      obtain ⟨ihs, ihd⟩ := ih s0 d0 heq
      by_cases h1 : r.amount.symbol = STEEM_SYMBOL
      · have h2 : ¬(r.amount.symbol = SBD_SYMBOL) := by
          rw [h1]; decide
        rw [if_pos h1] at h
        obtain ⟨hs, hd⟩ : s0 + r.amount.amount = s ∧ d0 = d := by
          simpa using h
        rw [List.filter_cons_of_pos (by simpa using h1),
          List.filter_cons_of_neg (by simpa using h2),
          List.map_cons, List.sum_cons]
        omega
      · by_cases h2 : r.amount.symbol = SBD_SYMBOL
        · rw [if_neg h1, if_pos h2] at h
          obtain ⟨hs, hd⟩ : s0 = s ∧ d0 + r.amount.amount = d := by
            simpa using h
          rw [List.filter_cons_of_neg (by simpa using h1),
            List.filter_cons_of_pos (by simpa using h2),
            List.map_cons, List.sum_cons]
          omega
        · rw [if_neg h1, if_neg h2] at h
          exact absurd h (by simp)

/-- The escrow walk accumulates exactly the per-escrow STEEM and SBD
contributions of the claim (balance plus matching-symbol pending fee). -/
theorem escrowTotals_spec (l : List Escrow) (s d : Int)
    (h : escrowTotals l = some (s, d)) :
    s = (l.map fun e => e.steem_balance
        + (if e.pending_fee.symbol = STEEM_SYMBOL then e.pending_fee.amount else 0)).sum ∧
    d = (l.map fun e => e.sbd_balance
        + (if e.pending_fee.symbol = SBD_SYMBOL then e.pending_fee.amount else 0)).sum := by
  induction l generalizing s d with
  | nil =>
    simp only [escrowTotals, Option.some.injEq, Prod.mk.injEq] at h
    simp [← h.1, ← h.2]
  | cons e rest ih =>
    rw [escrowTotals] at h
    split at h
    · exact absurd h (by simp)
    · rename_i s0 d0 heq
      obtain ⟨ihs, ihd⟩ := ih s0 d0 heq
      by_cases h1 : e.pending_fee.symbol = STEEM_SYMBOL
      · have h2 : ¬(e.pending_fee.symbol = SBD_SYMBOL) := by
          rw [h1]; decide
        rw [if_pos h1] at h
        obtain ⟨hs, hd⟩ : s0 + e.steem_balance + e.pending_fee.amount = s ∧
            d0 + e.sbd_balance = d := by
          simpa using h
        rw [List.map_cons, List.sum_cons, List.map_cons, List.sum_cons,
          if_pos h1, if_neg h2]
        omega
      · by_cases h2 : e.pending_fee.symbol = SBD_SYMBOL
        · rw [if_neg h1, if_pos h2] at h
          obtain ⟨hs, hd⟩ : s0 + e.steem_balance = s ∧
              d0 + e.sbd_balance + e.pending_fee.amount = d := by
            simpa using h
          rw [List.map_cons, List.sum_cons, List.map_cons, List.sum_cons,
            if_neg h1, if_pos h2]
          omega
        · rw [if_neg h1, if_neg h2] at h
          exact absurd h (by simp)

/-- The savings-withdraw walk accumulates exactly the filtered STEEM and
SBD sums. -/
theorem savingsWithdrawTotals_spec (l : List SavingsWithdraw) (s d : Int)
    (h : savingsWithdrawTotals l = some (s, d)) :
    s = ((l.filter fun w => w.amount.symbol = STEEM_SYMBOL).map
        fun w => w.amount.amount).sum ∧
    d = ((l.filter fun w => w.amount.symbol = SBD_SYMBOL).map
        fun w => w.amount.amount).sum := by
  induction l generalizing s d with
  | nil =>
    simp only [savingsWithdrawTotals, Option.some.injEq, Prod.mk.injEq] at h
    simp [← h.1, ← h.2]
  | cons w rest ih =>
    rw [savingsWithdrawTotals] at h
    split at h
    · exact absurd h (by simp)
    · rename_i s0 d0 heq
      obtain ⟨ihs, ihd⟩ := ih s0 d0 heq
      by_cases h1 : w.amount.symbol = STEEM_SYMBOL
      · have h2 : ¬(w.amount.symbol = SBD_SYMBOL) := by
          rw [h1]; decide
        rw [if_pos h1] at h
        obtain ⟨hs, hd⟩ : s0 + w.amount.amount = s ∧ d0 = d := by
          simpa using h
        rw [List.filter_cons_of_pos (by simpa using h1),
          List.filter_cons_of_neg (by simpa using h2),
          List.map_cons, List.sum_cons]
        omega
      · by_cases h2 : w.amount.symbol = SBD_SYMBOL
        · rw [if_neg h1, if_pos h2] at h
          obtain ⟨hs, hd⟩ : s0 = s ∧ d0 + w.amount.amount = d := by
            simpa using h
          rw [List.filter_cons_of_neg (by simpa using h1),
            List.filter_cons_of_pos (by simpa using h2),
            List.map_cons, List.sum_cons]
          omega
        · rw [if_neg h1, if_neg h2] at h
          exact absurd h (by simp)

/-- The limit-order walk accumulates exactly the filtered STEEM- and
SBD-based `for_sale` sums. -/
theorem limitOrderTotals_spec (l : List LimitOrder) :
    (limitOrderTotals l).1
      = ((l.filter fun o => o.sell_price.base.symbol = STEEM_SYMBOL).map
          fun o => o.for_sale).sum ∧
    (limitOrderTotals l).2
      = ((l.filter fun o => o.sell_price.base.symbol = SBD_SYMBOL).map
          fun o => o.for_sale).sum := by
  induction l with
  | nil => simp [limitOrderTotals]
  | cons o rest ih =>
    obtain ⟨ihs, ihd⟩ := ih
    by_cases h1 : o.sell_price.base.symbol = STEEM_SYMBOL
    · have h2 : ¬(o.sell_price.base.symbol = SBD_SYMBOL) := by
        rw [h1]; decide
      rw [List.filter_cons_of_pos (by simpa using h1),
        List.filter_cons_of_neg (by simpa using h2),
        List.map_cons, List.sum_cons]
      simp only [limitOrderTotals, if_pos h1]
      omega
    · by_cases h2 : o.sell_price.base.symbol = SBD_SYMBOL
      · rw [List.filter_cons_of_neg (by simpa using h1),
          List.filter_cons_of_pos (by simpa using h2),
          List.map_cons, List.sum_cons]
        simp only [limitOrderTotals, if_neg h1, if_pos h2]
        omega
      · rw [List.filter_cons_of_neg (by simpa using h1),
          List.filter_cons_of_neg (by simpa using h2)]
        simp only [limitOrderTotals, if_neg h1, if_neg h2]
        omega

/-- C1: whenever `validate_invariants` runs and passes (it is the
end-of-block invariant check, performed when not skipped; every
`FC_ASSERT` in it holds), the global `current_supply` equals the claim's
STEEM decomposition — account liquid + savings, escrow STEEM (balance and
STEEM pending fees), STEEM convert requests, STEEM-denominated limit
orders and savings withdraws, reward-fund balances, the total vesting
fund and the total reward fund — and likewise `current_sbd_supply` equals
the sum of all SBD holdings and `total_vesting_shares` the sum of all
accounts' vesting shares. -/
theorem validate_invariants_conservation (st : InvariantState)
    (h : validate_invariants st = true) :
    st.gpo.current_supply = claimSteemSupply st ∧
    st.gpo.current_sbd_supply = claimSbdSupply st ∧
    st.gpo.total_vesting_shares = claimVestingSupply st := by
  rw [validate_invariants] at h
  simp only [Bool.and_eq_true] at h
  obtain ⟨-, h⟩ := h
  split at h
  · rename_i cs cd es ed ws wd hc he hw
    simp only [Bool.and_eq_true, decide_eq_true_eq] at h
    obtain ⟨⟨⟨⟨⟨h1, h2⟩, h3⟩, h4⟩, -⟩, -⟩ := h
    obtain ⟨hcs, hcd⟩ := convertRequestTotals_spec _ _ _ hc
    obtain ⟨hes, hed⟩ := escrowTotals_spec _ _ _ he
    obtain ⟨hws, hwd⟩ := savingsWithdrawTotals_spec _ _ _ hw
    obtain ⟨hlos, hlod⟩ := limitOrderTotals_spec st.limit_orders
    refine ⟨?_, ?_, ?_⟩
    · rw [claimSteemSupply, h1, hcs, hes, hws, ← hlos]
      omega
    · rw [claimSbdSupply, h2, hcd, hed, hwd, ← hlod]
      omega
    · rw [claimVestingSupply, h3]
  · exact absurd h (by simp)

/-- C1, witness for `validate_invariants_conservation`: a small state —
one account holding 5 liquid + 2 savings STEEM, 3 SBD, 7 VESTS and
proxying to itself, one STEEM convert request of 1, one escrow of
4 STEEM with a 1-STEEM pending fee, one reward fund of 6, vesting fund 9
and total reward fund 10, consistent global supplies, null feed. -/
theorem validate_invariants_conservation_witness :
    validate_invariants
      ⟨[⟨5, 2, 3, 0, 7, false, [0, 0, 0, 0]⟩], [⟨6⟩], [⟨⟨1, 1⟩⟩],
        [], [⟨4, 0, ⟨1, 1⟩⟩], [], [⟨6⟩],
        ⟨38, 3, 7, 9, 10, 38⟩, ⟨⟨0, 1⟩, ⟨0, 2⟩⟩⟩ = true ∧
    ((⟨38, 3, 7, 9, 10, 38⟩ : GlobalProps).current_supply
        = claimSteemSupply
          ⟨[⟨5, 2, 3, 0, 7, false, [0, 0, 0, 0]⟩], [⟨6⟩], [⟨⟨1, 1⟩⟩],
            [], [⟨4, 0, ⟨1, 1⟩⟩], [], [⟨6⟩],
            ⟨38, 3, 7, 9, 10, 38⟩, ⟨⟨0, 1⟩, ⟨0, 2⟩⟩⟩ ∧
      (⟨38, 3, 7, 9, 10, 38⟩ : GlobalProps).current_sbd_supply
        = claimSbdSupply
          ⟨[⟨5, 2, 3, 0, 7, false, [0, 0, 0, 0]⟩], [⟨6⟩], [⟨⟨1, 1⟩⟩],
            [], [⟨4, 0, ⟨1, 1⟩⟩], [], [⟨6⟩],
            ⟨38, 3, 7, 9, 10, 38⟩, ⟨⟨0, 1⟩, ⟨0, 2⟩⟩⟩ ∧
      (⟨38, 3, 7, 9, 10, 38⟩ : GlobalProps).total_vesting_shares
        = claimVestingSupply
          ⟨[⟨5, 2, 3, 0, 7, false, [0, 0, 0, 0]⟩], [⟨6⟩], [⟨⟨1, 1⟩⟩],
            [], [⟨4, 0, ⟨1, 1⟩⟩], [], [⟨6⟩],
            ⟨38, 3, 7, 9, 10, 38⟩, ⟨⟨0, 1⟩, ⟨0, 2⟩⟩⟩) :=
  ⟨by decide,
    validate_invariants_conservation
      ⟨[⟨5, 2, 3, 0, 7, false, [0, 0, 0, 0]⟩], [⟨6⟩], [⟨⟨1, 1⟩⟩],
        [], [⟨4, 0, ⟨1, 1⟩⟩], [], [⟨6⟩],
        ⟨38, 3, 7, 9, 10, 38⟩, ⟨⟨0, 1⟩, ⟨0, 2⟩⟩⟩ (by decide)⟩

/-! ## C10 — matching fully fills at least one order -/

/-- `fill_order` on a limit order paying its entire `amount_for_sale`:
the order is removed and the fill is reported. -/
theorem fill_limit_order_full (o : LimitOrder) (receives : Asset)
    (hsym : o.amount_for_sale.symbol ≠ receives.symbol) :
    fill_limit_order o o.amount_for_sale receives = some (true, none) := by
  unfold fill_limit_order
  rw [if_neg (not_not_intro rfl), if_neg hsym, if_pos rfl]

/-- `fill_order` on a limit order never throws when the pays leg carries
the order's sale symbol and differs from the receives symbol. -/
theorem fill_limit_order_isSome (o : LimitOrder) (pays receives : Asset)
    (hp : o.amount_for_sale.symbol = pays.symbol)
    (hr : pays.symbol ≠ receives.symbol) :
    ∃ pr, fill_limit_order o pays receives = some pr := by
  unfold fill_limit_order
  rw [if_neg (not_not_intro hp), if_neg hr]
  by_cases he : pays = o.amount_for_sale
  · rw [if_pos he]; exact ⟨_, rfl⟩
  · rw [if_neg he]
    by_cases hd : ({ o with for_sale := o.for_sale - pays.amount } :
        LimitOrder).amount_to_receive.amount = 0
    · rw [if_pos hd]; exact ⟨_, rfl⟩
    · rw [if_neg hd]; exact ⟨_, rfl⟩

/-- C10: a single `match` call on two limit orders passing its entry
`assert`s (opposed symbol pairs, both `for_sale` amounts positive, match
price quoted in the traded pair, distinct base symbols) succeeds, its bit
field is nonzero, the side the branch selects pays its entire
`amount_for_sale` (the source's asserted disjunction), at least one of
the two orders is removed from the book, and whenever bit 0 is clear —
the case in which the `apply_order` loop continues — the *old* order is
removed, so each continuing iteration strictly shrinks the opposing book
(the loop itself, `apply_order_loop`, is structurally recursive and
total). -/
theorem match_limit_orders_fills_one (new_order old_order : LimitOrder)
    (mp : Price)
    (h1 : new_order.sell_price.quote.symbol = old_order.sell_price.base.symbol)
    (h2 : new_order.sell_price.base.symbol = old_order.sell_price.quote.symbol)
    (h3 : 0 < new_order.for_sale) (h4 : 0 < old_order.for_sale)
    (h5 : mp.quote.symbol = new_order.sell_price.base.symbol)
    (h6 : mp.base.symbol = old_order.sell_price.base.symbol)
    (h7 : new_order.sell_price.base.symbol ≠ old_order.sell_price.base.symbol) :
    ∃ mr, match_limit_orders new_order old_order mp = some mr ∧
      mr.bits ≠ 0 ∧
      (mr.newPays = new_order.amount_for_sale ∨
        mr.oldPays = old_order.amount_for_sale) ∧
      (mr.newRemaining = none ∨ mr.oldRemaining = none) ∧
      (mr.bits % 2 = 0 → mr.oldRemaining = none) := by
  have hAsym : new_order.amount_for_sale.symbol
      = new_order.sell_price.base.symbol := rfl
  have h34 : new_order.for_sale > 0 ∧ old_order.for_sale > 0 := ⟨h3, h4⟩
  have hBsym : old_order.amount_for_sale.symbol
      = old_order.sell_price.base.symbol := rfl
  by_cases hc : new_order.amount_for_sale.amount
      ≤ (mulAssetPrice old_order.amount_for_sale mp).amount
  · -- the new order is the smaller side and pays everything
    have hq1sym : (mulAssetPrice new_order.amount_for_sale mp).symbol
        = mp.base.symbol := by
      unfold mulAssetPrice
      rw [if_neg (by rw [hAsym, h6]; exact h7)]
    have hfn : fill_limit_order new_order new_order.amount_for_sale
        (mulAssetPrice new_order.amount_for_sale mp) = some (true, none) :=
      fill_limit_order_full _ _ (by rw [hAsym, hq1sym, h6]; exact h7)
    obtain ⟨⟨f2, r2⟩, hfo⟩ := fill_limit_order_isSome old_order
      (mulAssetPrice new_order.amount_for_sale mp) new_order.amount_for_sale
      (by rw [hBsym, hq1sym, h6])
      (by rw [hq1sym, h6, hAsym]; exact fun hh => h7 hh.symm)
    refine ⟨⟨1 + (if f2 then 2 else 0), new_order.amount_for_sale,
      mulAssetPrice new_order.amount_for_sale mp,
      mulAssetPrice new_order.amount_for_sale mp, new_order.amount_for_sale,
      none, r2⟩, ?_, ?_, Or.inl rfl, Or.inl rfl, ?_⟩
    · simp only [match_limit_orders, if_neg (not_not_intro h1),
        if_neg (not_not_intro h2), if_neg (not_not_intro h34),
        if_neg (not_not_intro h5), if_neg (not_not_intro h6),
        if_pos hc, hfn, hfo, if_true]
    · cases f2 <;> simp
    · intro hb
      cases f2 <;> simp at hb
  · -- the old order is the smaller side and pays everything
    have hq2sym : (mulAssetPrice old_order.amount_for_sale mp).symbol
        = mp.quote.symbol := by
      unfold mulAssetPrice
      rw [if_pos (by rw [hBsym, h6])]
    obtain ⟨⟨f1, r1⟩, hfn⟩ := fill_limit_order_isSome new_order
      (mulAssetPrice old_order.amount_for_sale mp) old_order.amount_for_sale
      (by rw [hAsym, hq2sym, h5])
      (by rw [hq2sym, h5, hBsym]; exact h7)
    have hfo : fill_limit_order old_order old_order.amount_for_sale
        (mulAssetPrice old_order.amount_for_sale mp) = some (true, none) :=
      fill_limit_order_full _ _
        (by rw [hBsym, hq2sym, h5]; exact fun hh => h7 hh.symm)
    refine ⟨⟨(if f1 then 1 else 0) + 2,
      mulAssetPrice old_order.amount_for_sale mp, old_order.amount_for_sale,
      old_order.amount_for_sale, mulAssetPrice old_order.amount_for_sale mp,
      r1, none⟩, ?_, ?_, Or.inr rfl, Or.inr rfl, fun _ => rfl⟩
    · simp only [match_limit_orders, if_neg (not_not_intro h1),
        if_neg (not_not_intro h2), if_neg (not_not_intro h34),
        if_neg (not_not_intro h5), if_neg (not_not_intro h6),
        if_neg hc, hfn, hfo, if_true]
    · cases f1 <;> simp

/-- C10, witness for `match_limit_orders_fills_one`: a STEEM seller
against an SBD seller at the old order's price. -/
theorem match_limit_orders_fills_one_witness :
    ((⟨7, 1, 10, ⟨⟨2, 1⟩, ⟨1, 2⟩⟩, 0⟩ : LimitOrder).sell_price.quote.symbol
        = (⟨8, 2, 5, ⟨⟨1, 2⟩, ⟨2, 1⟩⟩, 0⟩ : LimitOrder).sell_price.base.symbol ∧
      (⟨7, 1, 10, ⟨⟨2, 1⟩, ⟨1, 2⟩⟩, 0⟩ : LimitOrder).sell_price.base.symbol
        = (⟨8, 2, 5, ⟨⟨1, 2⟩, ⟨2, 1⟩⟩, 0⟩ : LimitOrder).sell_price.quote.symbol ∧
      (0 : Int) < (⟨7, 1, 10, ⟨⟨2, 1⟩, ⟨1, 2⟩⟩, 0⟩ : LimitOrder).for_sale ∧
      (0 : Int) < (⟨8, 2, 5, ⟨⟨1, 2⟩, ⟨2, 1⟩⟩, 0⟩ : LimitOrder).for_sale) ∧
    (∃ mr, match_limit_orders ⟨7, 1, 10, ⟨⟨2, 1⟩, ⟨1, 2⟩⟩, 0⟩
        ⟨8, 2, 5, ⟨⟨1, 2⟩, ⟨2, 1⟩⟩, 0⟩ (⟨⟨1, 2⟩, ⟨2, 1⟩⟩ : Price) = some mr ∧
      mr.bits ≠ 0 ∧
      (mr.newPays = (⟨7, 1, 10, ⟨⟨2, 1⟩, ⟨1, 2⟩⟩, 0⟩ : LimitOrder).amount_for_sale ∨
        mr.oldPays = (⟨8, 2, 5, ⟨⟨1, 2⟩, ⟨2, 1⟩⟩, 0⟩ : LimitOrder).amount_for_sale) ∧
      (mr.newRemaining = none ∨ mr.oldRemaining = none) ∧
      (mr.bits % 2 = 0 → mr.oldRemaining = none)) :=
  ⟨⟨rfl, rfl, by decide, by decide⟩,
    match_limit_orders_fills_one ⟨7, 1, 10, ⟨⟨2, 1⟩, ⟨1, 2⟩⟩, 0⟩
      ⟨8, 2, 5, ⟨⟨1, 2⟩, ⟨2, 1⟩⟩, 0⟩ ⟨⟨1, 2⟩, ⟨2, 1⟩⟩
      rfl rfl (by decide) (by decide) rfl rfl (by decide)⟩

end LadderChain
